import Mathlib

/-!
Verification development for the VoIPCheck status extraction and decision
engine (`src/voipcheck/voipcheck.py`).

The embedded core consists of:

* the table reduction loop of `get_voice_status` (lines 177-190 of the
  source): rows of cells are folded into a `dict[str, dict[str, str | None]]`,
  a single-cell row with non-empty stripped text starting a new (or
  resetting an existing) section, and `align="left"` cells in multi-cell
  rows contributing `(label, following-cell-text-or-None)` pairs to the
  current section;
* the decision logic of `main` (lines 257-291): per-line hook-state pings,
  the unregistered-line computation, the success/fail registration ping and
  the resulting process exit status, together with the `__main__` wrapper
  (lines 294-304) that maps any uncaught exception to exit status 1.

Python dicts are modelled as association lists with in-place overwrite
(`dictInsert`), preserving insertion order exactly as Python does.
`get_text(strip=True)` on a cell is modelled as `strip` applied to the
cell's text. Python's scoping of the loop variable `key` (assigned by the walrus
operator even when the if-condition fails, unbound before the first
single-cell row) is modelled by an `Option String` component of the fold
state; referencing it while unbound (`UnboundLocalError`) or indexing
`data` with a key that has no section (`KeyError`) are the two reduction
errors, both surfaced by the source's `except` clause as a `LookupError`.
-/

deriving instance DecidableEq for Except

namespace VoIPCheck

/-- Python `.strip()` as performed by `get_text(strip=True)`: remove leading
and trailing whitespace characters, keeping embedded whitespace. -/
def strip (s : String) : String :=
  ⟨((s.data.dropWhile Char.isWhitespace).reverse.dropWhile Char.isWhitespace).reverse⟩

/-- A table cell: the flattened text content of a `td` element and its
optional `align` attribute. -/
structure Cell where
  text : String
  align : Option String
deriving DecidableEq, Repr

/-- A table row: the ordered `td` cells of a `tr` element. -/
abbrev Row := List Cell

/-- One section's attribute mapping: a Python `dict[str, str | None]` as an
insertion-ordered association list.  A `none` value is the Python `None`
stored when a left-aligned cell has no following cell. -/
abbrev Section := List (String × Option String)

/-- The reduced table: a Python `dict[str, dict[str, str | None]]` as an
insertion-ordered association list from section key to `Section`. -/
abbrev StatusTable := List (String × Section)

/-- Python dict assignment `d[k] = v`: overwrite in place if `k` is present,
else append. -/
def dictInsert (k : String) (v : β) : List (String × β) → List (String × β)
  | [] => [(k, v)]
  | (k', v') :: rest =>
    if k' = k then (k, v) :: rest else (k', v') :: dictInsert k v rest

/-- Python dict lookup `d[k]` as an option (`none` models a `KeyError`). -/
def dictGet? (k : String) : List (String × β) → Option β
  | [] => none
  | (k', v') :: rest => if k' = k then some v' else dictGet? k rest

/-- The two ways the reduction loop of `get_voice_status` can raise:
`unboundKey` is the `UnboundLocalError` from evaluating `data[key]` before
any single-cell row assigned `key`; `keyNotFound k` is the `KeyError` from
`data[key]` when `key = k` has no section in `data`.  The source's `except`
clause converts either into a `LookupError`. -/
inductive ReduceError where
  | unboundKey : ReduceError
  | keyNotFound : String → ReduceError
deriving DecidableEq, Repr

/-- The inner cell loop of `get_voice_status` (lines 185-190): scan the
cells of a multi-cell row left to right; for each cell with
`align="left"`, execute
`data[key][td.get_text(strip=True)] = tds[i+1].get_text(strip=True) if i+1 < len(tds) else None`.
`key?` is `none` while the Python variable `key` is unbound. -/
def processRow (key? : Option String) (data : StatusTable) : List Cell → Except ReduceError StatusTable
  | [] => .ok data
  | c :: rest =>
    if c.align = some "left" then
      match key? with
      | none => .error .unboundKey
      | some key =>
        match dictGet? key data with
        | none => .error (.keyNotFound key)
        | some sec =>
          processRow key?
            (dictInsert key
              (dictInsert (strip c.text) (rest.head?.map (fun d => strip d.text)) sec) data)
            rest
    else
      processRow key? data rest

/-- One iteration of the row loop of `get_voice_status` (lines 178-190).
For a single-cell row, `if key := tds[0].get_text(strip=True): data[key] = {}`:
the walrus operator assigns `key` even when the stripped text is empty, and
only a non-empty text creates (or resets) a section.  Any other row is
handed to the cell loop. -/
def reduceStep (st : Option String × StatusTable) (row : Row) :
    Except ReduceError (Option String × StatusTable) :=
  match row with
  | [c] =>
    let k := strip c.text
    if k = "" then .ok (some k, st.2)
    else .ok (some k, dictInsert k [] st.2)
  | cells => (processRow st.1 st.2 cells).map (fun d => (st.1, d))

/-- Fold the row loop from an explicit starting state. -/
def reduceFrom (st : Option String × StatusTable) (rows : List Row) :
    Except ReduceError (Option String × StatusTable) :=
  rows.foldlM reduceStep st

/-- The table reduction of `get_voice_status` (lines 177-190): fold the row
loop over all rows starting from `data = {}` with `key` unbound, returning
the reduced `data`. -/
def reduce (rows : List Row) : Except ReduceError StatusTable :=
  (reduceFrom (none, []) rows).map (fun st => st.2)

/-- The per-line status as read by `main`: the raw values stored for
`"Hook State:"` and `"Registration State:"` in a line's section
(`str | None` in the source). -/
structure LineStatus where
  hook : Option String
  reg : Option String
deriving DecidableEq, Repr

/-- Line 264: `data[f"Line {l} Status"]["Hook State:"] == "On"`. -/
def hookStateOn (v : Option String) : Bool :=
  v = some "On"

/-- Line 273: `data[f"Line {l} Status"]["Registration State:"] != "Registered"`. -/
def lineUnregistered (v : Option String) : Bool :=
  v ≠ some "Registered"

/-- A notification intent sent to the monitoring endpoint: a hook-state
ping for a line (lines 263-268), the registration-OK ping (lines 276-280),
or the registration-fail ping carrying the unregistered line numbers
(lines 281-289). -/
inductive NotificationIntent where
  | HookOn : Nat → NotificationIntent
  | RegistrationOk : NotificationIntent
  | RegistrationFail : List Nat → NotificationIntent
deriving DecidableEq, Repr

/-- Whether an intent is the registration-state ping (success or failure). -/
def isRegIntent : NotificationIntent → Bool
  | .HookOn _ => false
  | .RegistrationOk => true
  | .RegistrationFail _ => true

/-- Lines 263-268: the lines pinged for hook state, in ascending order
(`for l in range(1, 3): if ... == "On"`). -/
def hookLines (s1 s2 : LineStatus) : List Nat :=
  (if hookStateOn s1.hook then [1] else []) ++ (if hookStateOn s2.hook then [2] else [])

/-- Lines 270-274: `unregistered`, the ascending list of lines whose
registration state differs from `"Registered"`. -/
def unregLines (s1 s2 : LineStatus) : List Nat :=
  (if lineUnregistered s1.reg then [1] else []) ++ (if lineUnregistered s2.reg then [2] else [])

/-- The decision logic of `main` (lines 263-291) as an intent sequence:
hook-state pings for the "On" lines in ascending order, then exactly one
registration intent — `RegistrationOk` when `unregistered` is empty, else
`RegistrationFail unregistered` after which the source exits. -/
def decide (s1 s2 : LineStatus) : List NotificationIntent :=
  (hookLines s1 s2).map NotificationIntent.HookOn ++
    [if unregLines s1 s2 = [] then NotificationIntent.RegistrationOk
     else NotificationIntent.RegistrationFail (unregLines s1 s2)]

/-- Failures of `main` after the table is reduced: a `KeyError` from
`data[line][attr]` (lines 257-261). -/
inductive MainError where
  | missingKey : String → String → MainError
deriving DecidableEq, Repr

/-- Lookup `data[sec][attr]` as performed by `main`'s status-logging loop
(lines 257-261): a missing section or attribute raises `KeyError`. -/
def getAttr (data : StatusTable) (sec attr : String) : Except MainError (Option String) :=
  match dictGet? sec data with
  | none => .error (.missingKey sec attr)
  | some s =>
    match dictGet? attr s with
    | none => .error (.missingKey sec attr)
    | some v => .ok v

/-- The accesses `data[f"Line {l} Status"][attr]` of `main`'s logging loop
(lines 257-261), in source order, yielding the two line statuses consumed
by the decision logic. -/
def buildLineStatus (data : StatusTable) : Except MainError (LineStatus × LineStatus) := do
  let h1 ← getAttr data "Line 1 Status" "Hook State:"
  let r1 ← getAttr data "Line 1 Status" "Registration State:"
  let h2 ← getAttr data "Line 2 Status" "Hook State:"
  let r2 ← getAttr data "Line 2 Status" "Registration State:"
  return (⟨h1, r1⟩, ⟨h2, r2⟩)

/-- Sequential execution of the intent pings by `main` (lines 263-291),
given which pings succeed.  A failed `requests` call raises
(`raise_for_status`), which the `__main__` wrapper turns into exit status
1; a successful `RegistrationOk` ping reaches `exit_with_status(0)`; a
`RegistrationFail` ping is followed by `exit_with_status(1)` whether or not
the fail ping itself succeeded. -/
def runIntents (pingOk : NotificationIntent → Bool) : List NotificationIntent → Nat
  | [] => 0
  | i :: rest =>
    if pingOk i then
      match i, rest with
      | .RegistrationOk, [] => 0
      | .RegistrationFail _, _ => 1
      | _, _ => runIntents pingOk rest
    else 1

/-- The process exit status of one check cycle: `main` from line 257 on,
wrapped by the `__main__` handler that converts any uncaught exception
(a `KeyError` from the logging loop, a failed ping) into exit status 1. -/
def exitCode (data : StatusTable) (pingOk : NotificationIntent → Bool) : Nat :=
  match buildLineStatus data with
  | .error _ => 1
  | .ok (s1, s2) => runIntents pingOk (decide s1 s2)

/-- A single-cell row with non-empty stripped text: a section header. -/
def isHeaderRow : Row → Bool
  | [c] => strip c.text ≠ ""
  | _ => false

/-- Whether a row has a cell with `align="left"`. -/
def hasLeftCell (r : Row) : Bool :=
  r.any (fun c => c.align = some "left")

/-- A key/value pair rendered as a table row: the left-aligned label cell
followed by its value cell. -/
def kvRow (p : Cell × Cell) : Row :=
  [p.1, p.2]

/-- The section entry a well-formed key/value row contributes: the stripped
label text mapped to the stripped value text. -/
def kvEntry (p : Cell × Cell) : String × Option String :=
  (strip p.1.text, some (strip p.2.text))

/-- Observation of a reduction state: the value stored under `attr` in the
section named `sec` (`none` when the state is an error or the section or
attribute is absent; `some v` when present, where `v` is the stored
`str | None` value). -/
def storedValue (res : Except ReduceError (Option String × StatusTable))
    (sec attr : String) : Option (Option String) :=
  match res with
  | .error _ => none
  | .ok st => (dictGet? sec st.2).bind (dictGet? attr)

/-- A header row followed by two key/value rows with the same label: the
input instantiating the duplicate-label behaviour of the reducer. -/
def dupLabelRows : List Row :=
  [[⟨"Hdr", none⟩],
   [⟨"A", some "left"⟩, ⟨"x", none⟩],
   [⟨"A", some "left"⟩, ⟨"y", none⟩]]

theorem dictGet?_insert_self (k : String) (v : β) (d : List (String × β)) :
    dictGet? k (dictInsert k v d) = some v := by
  induction d with
  | nil => simp [dictInsert, dictGet?]
  | cons p rest ih =>
    by_cases h : p.1 = k
    · simp [dictInsert, dictGet?, h]
    · simpa [dictInsert, dictGet?, h] using ih

theorem dictGet?_insert_ne (k k' : String) (v : β) (d : List (String × β)) (h : k' ≠ k) :
    dictGet? k' (dictInsert k v d) = dictGet? k' d := by
  induction d with
  | nil => simp [dictInsert, dictGet?, Ne.symm h]
  | cons p rest ih =>
    by_cases hp : p.1 = k
    · simp [dictInsert, dictGet?, hp, h, Ne.symm h]
    · simp [dictInsert, dictGet?, hp, ih]

theorem dictInsert_eq_append (k : String) (v : β) (d : List (String × β))
    (h : dictGet? k d = none) : dictInsert k v d = d ++ [(k, v)] := by
  induction d with
  | nil => simp [dictInsert]
  | cons p rest ih =>
    by_cases hp : p.1 = k
    · simp [dictGet?, hp] at h
    · simp [dictGet?, hp] at h
      simp [dictInsert, hp, ih h]

theorem dictGet?_append_of_none (k : String) (d1 d2 : List (String × β))
    (h : dictGet? k d1 = none) : dictGet? k (d1 ++ d2) = dictGet? k d2 := by
  induction d1 with
  | nil => simp
  | cons p rest ih =>
    by_cases hp : p.1 = k
    · simp [dictGet?, hp] at h
    · simp [dictGet?, hp] at h ⊢
      exact ih h

theorem reduceFrom_cons (st : Option String × StatusTable) (r : Row) (rows : List Row) :
    reduceFrom st (r :: rows) =
      reduceStep st r >>= fun st' => reduceFrom st' rows := rfl

theorem reduceFrom_append (st : Option String × StatusTable) (rows1 rows2 : List Row) :
    reduceFrom st (rows1 ++ rows2) =
      reduceFrom st rows1 >>= fun st' => reduceFrom st' rows2 := by
  induction rows1 generalizing st with
  | nil => rfl
  | cons r rows ih =>
    rw [List.cons_append, reduceFrom_cons, reduceFrom_cons]
    cases h : reduceStep st r with
    | error e => rfl
    | ok st' => exact ih st'

theorem reduceStep_multi (key? : Option String) (d : StatusTable) (a b : Cell) (rest : List Cell) :
    reduceStep (key?, d) (a :: b :: rest) =
      (processRow key? d (a :: b :: rest)).map (fun x => (key?, x)) := rfl

theorem reduceStep_nilRow (key? : Option String) (d : StatusTable) :
    reduceStep (key?, d) [] = .ok (key?, d) := rfl

theorem reduceStep_blank (key? : Option String) (d : StatusTable) (c : Cell)
    (hc : strip c.text = "") : reduceStep (key?, d) [c] = .ok (some "", d) := by
  rw [reduceStep]
  simp [hc]

theorem reduceStep_header (key? : Option String) (d : StatusTable) (c : Cell)
    (hc : strip c.text ≠ "") :
    reduceStep (key?, d) [c] = .ok (some (strip c.text), dictInsert (strip c.text) [] d) := by
  rw [reduceStep]
  simp [hc]

theorem hasLeftCell_cons (c : Cell) (rest : List Cell) :
    hasLeftCell (c :: rest) = (Decidable.decide (c.align = some "left") || hasLeftCell rest) := rfl

theorem processRow_no_left (key? : Option String) (d : StatusTable) (cs : List Cell)
    (h : hasLeftCell cs = false) : processRow key? d cs = .ok d := by
  induction cs with
  | nil => rfl
  | cons c rest ih =>
    rw [hasLeftCell_cons, Bool.or_eq_false_iff] at h
    obtain ⟨h1, h2⟩ := h
    cases key? with
    | none =>
      rw [processRow, if_neg (by simpa using h1)]
      exact ih h2
    | some k =>
      rw [processRow, if_neg (by simpa using h1)]
      exact ih h2

theorem processRow_left_nil_data (key? : Option String) (cs : List Cell)
    (h : hasLeftCell cs = true) :
    ∃ e, processRow key? [] cs = .error e := by
  induction cs with
  | nil => simp [hasLeftCell] at h
  | cons c rest ih =>
    by_cases hc : c.align = some "left"
    · cases key? with
      | none => exact ⟨.unboundKey, by rw [processRow, if_pos hc]⟩
      | some k => exact ⟨.keyNotFound k, by rw [processRow, if_pos hc]; rfl⟩
    · have h' : hasLeftCell rest = true := by
        rw [hasLeftCell_cons] at h
        simpa [hc] using h
      obtain ⟨e, he⟩ := ih h'
      refine ⟨e, ?_⟩
      cases key? with
      | none =>
        rw [processRow, if_neg hc]
        exact he
      | some k =>
        rw [processRow, if_neg hc]
        exact he

theorem processRow_missing_key (k : String) (d : StatusTable) (cs : List Cell)
    (hk : dictGet? k d = none) (h : hasLeftCell cs = true) :
    processRow (some k) d cs = .error (.keyNotFound k) := by
  induction cs with
  | nil => simp [hasLeftCell] at h
  | cons c rest ih =>
    by_cases hc : c.align = some "left"
    · rw [processRow, if_pos hc, hk]
    · have h' : hasLeftCell rest = true := by
        rw [hasLeftCell_cons] at h
        simpa [hc] using h
      rw [processRow, if_neg hc]
      exact ih h'

/-- C1: for every valid pair of line statuses, `decide` yields a non-empty
intent sequence whose last element is its sole registration intent; all
preceding intents are hook-on intents in ascending line order, and nothing
follows the registration intent (in particular a `RegistrationFail` is
terminal). -/
theorem decide_intent_structure (s1 s2 : LineStatus) :
    ∃ hooks r, decide s1 s2 = hooks.map NotificationIntent.HookOn ++ [r] ∧
      isRegIntent r = true ∧ List.Chain' (· < ·) hooks ∧
      (decide s1 s2).countP isRegIntent = 1 := by
  refine ⟨hookLines s1 s2,
    if unregLines s1 s2 = [] then NotificationIntent.RegistrationOk
      else NotificationIntent.RegistrationFail (unregLines s1 s2), rfl, ?_, ?_, ?_⟩
  · split <;> rfl
  · unfold hookLines
    cases hookStateOn s1.hook <;> cases hookStateOn s2.hook <;> simp
  · unfold decide
    rw [List.countP_append]
    have h1 : (List.map NotificationIntent.HookOn (hookLines s1 s2)).countP isRegIntent = 0 := by
      rw [List.countP_eq_zero]
      intro a ha
      rcases List.mem_map.1 ha with ⟨l, _, rfl⟩
      simp [isRegIntent]
    rw [h1]
    split <;> rfl

theorem reduceFrom_no_header_state (pre : List Row) (key? : Option String)
    (hk : key? = none ∨ key? = some "")
    (hpre : ∀ p ∈ pre, isHeaderRow p = false) :
    (∃ e, reduceFrom (key?, []) pre = .error e) ∨
      ∃ key?', (key?' = none ∨ key?' = some "") ∧
        reduceFrom (key?, []) pre = .ok (key?', []) := by
  induction pre generalizing key? with
  | nil => exact .inr ⟨key?, hk, rfl⟩
  | cons r rows ih =>
    have hr : isHeaderRow r = false := hpre r (List.mem_cons_self r rows)
    have hrows : ∀ p ∈ rows, isHeaderRow p = false :=
      fun p hp => hpre p (List.mem_cons_of_mem r hp)
    rcases r with _ | ⟨c, _ | ⟨b, rest⟩⟩
    · rw [reduceFrom_cons, reduceStep_nilRow]
      exact ih key? hk hrows
    · have hc : strip c.text = "" := by simpa [isHeaderRow] using hr
      rw [reduceFrom_cons, reduceStep_blank key? [] c hc]
      exact ih (some "") (Or.inr rfl) hrows
    · cases hl : hasLeftCell (c :: b :: rest) with
      | false =>
        have hstep : reduceStep (key?, ([] : StatusTable)) (c :: b :: rest) = .ok (key?, []) := by
          rw [reduceStep_multi, processRow_no_left _ _ _ hl]
          rfl
        rw [reduceFrom_cons, hstep]
        exact ih key? hk hrows
      | true =>
        obtain ⟨e, he⟩ := processRow_left_nil_data key? (c :: b :: rest) hl
        refine .inl ⟨e, ?_⟩
        rw [reduceFrom_cons, reduceStep_multi, he]
        rfl

/-- C3: a row with at least two cells that contains a left-aligned cell and
is not preceded by any section-header row makes `reduce` fail with a
malformed-input error; no status table is produced. -/
theorem kv_row_before_header_fails (pre : List Row) (r : Row) (post : List Row)
    (hpre : ∀ p ∈ pre, isHeaderRow p = false)
    (hlen : 2 ≤ r.length) (hleft : hasLeftCell r = true) :
    ∃ e, reduce (pre ++ r :: post) = .error e := by
  rcases r with _ | ⟨a, _ | ⟨b, rest⟩⟩
  · simp at hlen
  · simp at hlen
  · rcases reduceFrom_no_header_state pre none (Or.inl rfl) hpre with ⟨e, he⟩ | ⟨key?, hk, hok⟩
    · refine ⟨e, ?_⟩
      rw [reduce, reduceFrom_append, he]
      rfl
    · have herr : ∃ e, processRow key? [] (a :: b :: rest) = .error e :=
        processRow_left_nil_data key? (a :: b :: rest) hleft
      obtain ⟨e, he⟩ := herr
      refine ⟨e, ?_⟩
      rw [reduce, reduceFrom_append, hok]
      show ((reduceFrom (key?, []) ((a :: b :: rest) :: post)).map (fun st => st.2)) = _
      rw [reduceFrom_cons, reduceStep_multi, he]
      rfl

theorem kv_row_before_header_fails_witness :
    (∀ p ∈ ([] : List Row), isHeaderRow p = false) ∧
      2 ≤ ([⟨"Hook State:", some "left"⟩, ⟨"On", none⟩] : Row).length ∧
      hasLeftCell [⟨"Hook State:", some "left"⟩, ⟨"On", none⟩] = true ∧
      ∃ e, reduce ([] ++ [⟨"Hook State:", some "left"⟩, ⟨"On", none⟩] :: []) = .error e := by
  refine ⟨by simp, by decide, by decide, ?_⟩
  exact kv_row_before_header_fails [] [⟨"Hook State:", some "left"⟩, ⟨"On", none⟩] []
    (by simp) (by decide) (by decide)

/-- C7: a later duplicate silently replaces an earlier occurrence: appending
a section-header row whose stripped text already names a section resets that
section to the empty mapping, discarding its earlier entries, and storing an
attribute label a second time overwrites the earlier value with the later
one. -/
theorem later_duplicate_overwrites :
    (∀ (rows : List Row) (st st' : Option String × StatusTable) (c : Cell),
        strip c.text ≠ "" → reduceFrom st rows = .ok st' →
        reduceFrom st (rows ++ [[c]]) =
          .ok (some (strip c.text), dictInsert (strip c.text) [] st'.2) ∧
        dictGet? (strip c.text) (dictInsert (strip c.text) [] st'.2) = some []) ∧
    (∀ (l : String) (v1 v2 : Option String) (sec : Section),
        dictGet? l (dictInsert l v2 (dictInsert l v1 sec)) = some v2) := by
  constructor
  · intro rows st st' c hc h
    obtain ⟨k', d'⟩ := st'
    constructor
    · rw [reduceFrom_append, h]
      show reduceFrom (k', d') [[c]] = _
      rw [reduceFrom_cons, reduceStep_header k' d' c hc]
      rfl
    · exact dictGet?_insert_self ..
  · intro l v1 v2 sec
    exact dictGet?_insert_self ..

theorem later_duplicate_overwrites_witness :
    (reduceFrom (none, ([] : StatusTable))
        ([[⟨"Hdr", none⟩], [⟨"A", some "left"⟩, ⟨"x", none⟩]] ++ [[⟨"Hdr", none⟩]]) =
      .ok (some (strip "Hdr"), dictInsert (strip "Hdr") [] [("Hdr", [("A", some "x")])]) ∧
      dictGet? (strip "Hdr") (dictInsert (strip "Hdr") [] [("Hdr", [("A", some "x")])]) =
        some []) ∧
    dictGet? "A" (dictInsert "A" (some "y") (dictInsert "A" (some "x") [])) = some (some "y") := by
  refine ⟨?_, later_duplicate_overwrites.2 "A" (some "x") (some "y") []⟩
  exact later_duplicate_overwrites.1
    [[⟨"Hdr", none⟩], [⟨"A", some "left"⟩, ⟨"x", none⟩]]
    (none, []) (some "Hdr", [("Hdr", [("A", some "x")])]) ⟨"Hdr", none⟩
    (by decide) (by decide)

theorem processRow_preserves_no_empty (key? : Option String) (cs : List Cell)
    (d d' : StatusTable) (h : processRow key? d cs = .ok d')
    (h0 : dictGet? "" d = none) : dictGet? "" d' = none := by
  induction cs generalizing d with
  | nil =>
    have h' : Except.ok (ε := ReduceError) d = .ok d' := h
    injection h' with h''
    rw [← h'']
    exact h0
  | cons c rest ih =>
    cases key? with
    | none =>
      by_cases hc : c.align = some "left"
      · rw [processRow, if_pos hc] at h
        exact absurd h (by simp)
      · rw [processRow, if_neg hc] at h
        exact ih d h h0
    | some k =>
      by_cases hc : c.align = some "left"
      · cases hsec : dictGet? k d with
        | none =>
          rw [processRow, if_pos hc, hsec] at h
          exact absurd h (by simp)
        | some sec =>
          rw [processRow, if_pos hc, hsec] at h
          have hkne : k ≠ "" := by
            intro hkeq
            rw [hkeq, h0] at hsec
            exact Option.noConfusion hsec
          refine ih _ h ?_
          rw [dictGet?_insert_ne _ _ _ _ (Ne.symm hkne)]
          exact h0
      · rw [processRow, if_neg hc] at h
        exact ih d h h0

theorem reduceStep_preserves_no_empty (key? : Option String) (d : StatusTable)
    (r : Row) (st1 : Option String × StatusTable)
    (h : reduceStep (key?, d) r = .ok st1) (h0 : dictGet? "" d = none) :
    dictGet? "" st1.2 = none := by
  rcases r with _ | ⟨c, _ | ⟨b, rest⟩⟩
  · rw [reduceStep_nilRow] at h
    injection h with h'
    rw [← h']
    exact h0
  · by_cases hc : strip c.text = ""
    · rw [reduceStep_blank key? d c hc] at h
      injection h with h'
      rw [← h']
      exact h0
    · rw [reduceStep_header key? d c hc] at h
      injection h with h'
      rw [← h']
      show dictGet? "" (dictInsert (strip c.text) [] d) = none
      rw [dictGet?_insert_ne _ _ _ _ (Ne.symm hc)]
      exact h0
  · rw [reduceStep_multi] at h
    cases hp : processRow key? d (c :: b :: rest) with
    | error e =>
      rw [hp] at h
      exact absurd h (by simp [Except.map])
    | ok d2 =>
      rw [hp] at h
      simp only [Except.map] at h
      injection h with h'
      rw [← h']
      exact processRow_preserves_no_empty key? (c :: b :: rest) d d2 hp h0

theorem reduceFrom_no_empty_section (rows : List Row) (key? : Option String) (d : StatusTable)
    (st' : Option String × StatusTable)
    (h : reduceFrom (key?, d) rows = .ok st') (h0 : dictGet? "" d = none) :
    dictGet? "" st'.2 = none := by
  induction rows generalizing key? d with
  | nil =>
    have h' : Except.ok (ε := ReduceError) (key?, d) = .ok st' := h
    injection h' with h''
    rw [← h'']
    exact h0
  | cons r rows ih =>
    rw [reduceFrom_cons] at h
    cases hstep : reduceStep (key?, d) r with
    | error e =>
      rw [hstep] at h
      exact Except.noConfusion (h : Except.error e = .ok st')
    | ok st1 =>
      rw [hstep] at h
      obtain ⟨k1, d1⟩ := st1
      exact ih k1 d1 h (reduceStep_preserves_no_empty key? d r (k1, d1) hstep h0)

/-- C9: a single-cell row whose stripped text is empty overwrites the
current section key with the empty string, creating no section for it, so
a subsequent key/value row fails with a lookup error on the empty key
instead of storing its pairs into the previously current section. -/
theorem blank_header_poisons_section_key (pre post : List Row) (b : Cell) (r : Row)
    (key? : Option String) (d : StatusTable)
    (hb : strip b.text = "")
    (hpre : reduceFrom (none, []) pre = .ok (key?, d))
    (hlen : 2 ≤ r.length) (hleft : hasLeftCell r = true) :
    reduceFrom (none, []) (pre ++ [[b]]) = .ok (some "", d) ∧
      reduce (pre ++ [b] :: r :: post) = .error (.keyNotFound "") := by
  have h0 : dictGet? "" d = none :=
    reduceFrom_no_empty_section pre none [] (key?, d) hpre rfl
  constructor
  · rw [reduceFrom_append, hpre]
    show reduceFrom (key?, d) [[b]] = _
    rw [reduceFrom_cons, reduceStep_blank key? d b hb]
    rfl
  · rcases r with _ | ⟨a, _ | ⟨a2, rest⟩⟩
    · simp at hlen
    · simp at hlen
    · rw [reduce, reduceFrom_append, hpre]
      show ((reduceFrom (key?, d) ([b] :: (a :: a2 :: rest) :: post)).map (fun st => st.2)) = _
      rw [reduceFrom_cons, reduceStep_blank key? d b hb]
      show ((reduceFrom (some "", d) ((a :: a2 :: rest) :: post)).map (fun st => st.2)) = _
      rw [reduceFrom_cons, reduceStep_multi,
        processRow_missing_key "" d (a :: a2 :: rest) h0 hleft]
      rfl

theorem blank_header_poisons_section_key_witness :
    strip " " = "" ∧
    reduceFrom (none, []) [[⟨"Line 1 Status", none⟩], [⟨" ", none⟩]] =
        .ok (some "", [("Line 1 Status", [])]) ∧
      reduce [[⟨"Line 1 Status", none⟩], [⟨" ", none⟩],
        [⟨"Hook State:", some "left"⟩, ⟨"On", none⟩]] = .error (.keyNotFound "") := by
  refine ⟨by decide, ?_, ?_⟩
  · have h := blank_header_poisons_section_key [[⟨"Line 1 Status", none⟩]] [] ⟨" ", none⟩
      [⟨"Hook State:", some "left"⟩, ⟨"On", none⟩] (some "Line 1 Status")
      [("Line 1 Status", [])] (by decide) (by decide) (by decide) (by decide)
    simpa using h.1
  · have h := blank_header_poisons_section_key [[⟨"Line 1 Status", none⟩]] [] ⟨" ", none⟩
      [⟨"Hook State:", some "left"⟩, ⟨"On", none⟩] (some "Line 1 Status")
      [("Line 1 Status", [])] (by decide) (by decide) (by decide) (by decide)
    simpa using h.2

theorem processRow_last_left (k : String) (cs : List Cell) (c : Cell) (d : StatusTable)
    (sec : Section) (hk : dictGet? k d = some sec) (hc : c.align = some "left") :
    ∃ d' sec', processRow (some k) d (cs ++ [c]) = .ok d' ∧ dictGet? k d' = some sec' ∧
      dictGet? (strip c.text) sec' = some none := by
  induction cs generalizing d sec with
  | nil =>
    refine ⟨dictInsert k (dictInsert (strip c.text) none sec) d,
      dictInsert (strip c.text) none sec, ?_, dictGet?_insert_self .., dictGet?_insert_self ..⟩
    rw [List.nil_append, processRow, if_pos hc, hk]
    rfl
  | cons a rest ih =>
    by_cases ha : a.align = some "left"
    · obtain ⟨d', sec', h1, h2, h3⟩ := ih
        (dictInsert k
          (dictInsert (strip a.text) (((rest ++ [c]).head?).map (fun x => strip x.text)) sec) d)
        (dictInsert (strip a.text) (((rest ++ [c]).head?).map (fun x => strip x.text)) sec)
        (dictGet?_insert_self ..)
      refine ⟨d', sec', ?_, h2, h3⟩
      rw [List.cons_append, processRow, if_pos ha, hk]
      exact h1
    · obtain ⟨d', sec', h1, h2, h3⟩ := ih d sec hk
      refine ⟨d', sec', ?_, h2, h3⟩
      rw [List.cons_append, processRow, if_neg ha]
      exact h1

/-- C8: when the last cell of a multi-cell row is left-aligned, its stripped
text is stored as an attribute label whose value is the explicit no-value
marker `none` (Python `None`), which is distinct from the empty-string value
`some ""`. -/
theorem trailing_left_label_no_value (k : String) (d : StatusTable) (sec : Section)
    (cs : List Cell) (c : Cell) (hcs : cs ≠ [])
    (hk : dictGet? k d = some sec) (hc : c.align = some "left") :
    storedValue (reduceStep (some k, d) (cs ++ [c])) k (strip c.text) = some none ∧
      (none : Option String) ≠ some "" := by
  obtain ⟨d', sec', h1, h2, h3⟩ := processRow_last_left k cs c d sec hk hc
  refine ⟨?_, by simp⟩
  rcases cs with _ | ⟨a, cs'⟩
  · exact absurd rfl hcs
  · rcases cs' with _ | ⟨b, cs''⟩
    · simp only [List.cons_append, List.nil_append] at h1 ⊢
      rw [reduceStep_multi, h1]
      show (dictGet? k d').bind (dictGet? (strip c.text)) = some none
      rw [h2]
      exact h3
    · simp only [List.cons_append] at h1 ⊢
      rw [reduceStep_multi, h1]
      show (dictGet? k d').bind (dictGet? (strip c.text)) = some none
      rw [h2]
      exact h3

theorem trailing_left_label_no_value_witness :
    storedValue (reduceStep (some "Line 1 Status", [("Line 1 Status", [])])
        ([⟨"x", none⟩] ++ [⟨"Hook State:", some "left"⟩])) "Line 1 Status"
        (strip "Hook State:") = some none ∧
      (none : Option String) ≠ some "" :=
  trailing_left_label_no_value "Line 1 Status" [("Line 1 Status", [])] [] [⟨"x", none⟩]
    ⟨"Hook State:", some "left"⟩ (by decide) (by decide) (by decide)

/-- C10: in a key/value row, a left-aligned cell immediately followed by
another left-aligned cell acts both as the value of the preceding label and
as a label itself: after the two cells are processed, the current section
maps the first cell's stripped text to the second cell's stripped text, and
the second cell's stripped text to the stripped text of the next cell (or
the no-value marker when none follows). -/
theorem adjacent_left_cells_dual_role (k : String) (d : StatusTable) (sec : Section)
    (a b : Cell) (rest : List Cell)
    (hd : dictGet? k d = some sec) (ha : a.align = some "left") (hb : b.align = some "left")
    (hne : strip a.text ≠ strip b.text) :
    processRow (some k) d (a :: b :: rest) =
      processRow (some k)
        (dictInsert k
          (dictInsert (strip b.text) ((rest.head?).map (fun x => strip x.text))
            (dictInsert (strip a.text) (some (strip b.text)) sec))
          (dictInsert k (dictInsert (strip a.text) (some (strip b.text)) sec) d)) rest ∧
    dictGet? (strip a.text)
        (dictInsert (strip b.text) ((rest.head?).map (fun x => strip x.text))
          (dictInsert (strip a.text) (some (strip b.text)) sec)) =
      some (some (strip b.text)) ∧
    dictGet? (strip b.text)
        (dictInsert (strip b.text) ((rest.head?).map (fun x => strip x.text))
          (dictInsert (strip a.text) (some (strip b.text)) sec)) =
      some ((rest.head?).map (fun x => strip x.text)) := by
  refine ⟨?_, ?_, dictGet?_insert_self ..⟩
  · rw [processRow, if_pos ha, hd]
    show processRow (some k)
      (dictInsert k (dictInsert (strip a.text) (some (strip b.text)) sec) d) (b :: rest) = _
    rw [processRow, if_pos hb, dictGet?_insert_self]
  · rw [dictGet?_insert_ne _ _ _ _ hne]
    exact dictGet?_insert_self ..

theorem adjacent_left_cells_dual_role_witness :
    processRow (some "S") [("S", [])]
        [⟨"A", some "left"⟩, ⟨"B", some "left"⟩] =
      processRow (some "S")
        (dictInsert "S"
          (dictInsert (strip "B") ((([] : List Cell).head?).map (fun x => strip x.text))
            (dictInsert (strip "A") (some (strip "B")) []))
          (dictInsert "S" (dictInsert (strip "A") (some (strip "B")) []) [("S", [])])) [] ∧
    dictGet? (strip "A")
        (dictInsert (strip "B") ((([] : List Cell).head?).map (fun x => strip x.text))
          (dictInsert (strip "A") (some (strip "B")) [])) =
      some (some (strip "B")) ∧
    dictGet? (strip "B")
        (dictInsert (strip "B") ((([] : List Cell).head?).map (fun x => strip x.text))
          (dictInsert (strip "A") (some (strip "B")) [])) =
      some ((([] : List Cell).head?).map (fun x => strip x.text)) :=
  adjacent_left_cells_dual_role "S" [("S", [])] [] ⟨"A", some "left"⟩ ⟨"B", some "left"⟩ []
    (by decide) rfl rfl (by decide)

theorem dictGet?_cons_self (k : String) (v : β) (rest : List (String × β)) :
    dictGet? k ((k, v) :: rest) = some v := by
  simp [dictGet?]

theorem dictInsert_cons_self (k : String) (v w : β) (rest : List (String × β)) :
    dictInsert k v ((k, w) :: rest) = (k, v) :: rest := by
  simp [dictInsert]

theorem reduceFrom_kv_rows (k : String) (sec : Section) (kvs : List (Cell × Cell))
    (hleft : ∀ p ∈ kvs, p.1.align = some "left" ∧ p.2.align ≠ some "left")
    (hfresh : ∀ p ∈ kvs, dictGet? (strip p.1.text) sec = none)
    (hnodup : (kvs.map (fun p => strip p.1.text)).Nodup) :
    reduceFrom (some k, [(k, sec)]) (kvs.map kvRow) =
      .ok (some k, [(k, sec ++ kvs.map kvEntry)]) := by
  induction kvs generalizing sec with
  | nil =>
    show Except.ok (some k, [(k, sec)]) = Except.ok (some k, [(k, sec ++ List.map kvEntry [])])
    rw [List.map_nil, List.append_nil]
  | cons p kvs ih =>
    obtain ⟨hpl, hpv⟩ := hleft p (List.mem_cons_self p kvs)
    have hstep : reduceStep (some k, [(k, sec)]) (kvRow p) =
        .ok (some k, [(k, sec ++ [kvEntry p])]) := by
      rw [kvRow, reduceStep_multi, processRow, if_pos hpl, dictGet?_cons_self]
      show (processRow (some k)
          (dictInsert k (dictInsert (strip p.1.text) (some (strip p.2.text)) sec) [(k, sec)])
          [p.2]).map (fun x => (some k, x)) = _
      rw [dictInsert_cons_self, processRow, if_neg hpv]
      show Except.ok (some k, [(k, dictInsert (strip p.1.text) (some (strip p.2.text)) sec)]) = _
      rw [dictInsert_eq_append _ _ _ (hfresh p (List.mem_cons_self p kvs))]
      rfl
    rw [List.map_cons, reduceFrom_cons, hstep]
    rw [List.map_cons] at hnodup
    rw [List.nodup_cons] at hnodup
    have hne : ∀ q ∈ kvs, strip q.1.text ≠ strip p.1.text := by
      intro q hq hqe
      exact hnodup.1 (hqe ▸ List.mem_map_of_mem (fun p => strip p.1.text) hq)
    have hfresh' : ∀ q ∈ kvs, dictGet? (strip q.1.text) (sec ++ [kvEntry p]) = none := by
      intro q hq
      rw [dictGet?_append_of_none _ _ _ (hfresh q (List.mem_cons_of_mem p hq))]
      simp [dictGet?, kvEntry, Ne.symm (hne q hq)]
    have hrest := ih (sec ++ [kvEntry p])
      (fun q hq => hleft q (List.mem_cons_of_mem p hq)) hfresh' hnodup.2
    show reduceFrom (some k, [(k, sec ++ [kvEntry p])]) (kvs.map kvRow) = _
    rw [hrest, List.append_assoc]
    rfl

/-- C2 (amended): a well-formed sequence — one single-cell header row with
non-empty stripped text followed by N key/value rows, each a left-aligned
label cell followed by a non-left value cell, with pairwise-distinct
stripped labels — reduces to exactly one section, keyed by the header text,
holding exactly N entries, each label mapped to the stripped text of the
cell following it. -/
theorem reduce_wellformed_single_section (hdr : Cell) (kvs : List (Cell × Cell))
    (hh : strip hdr.text ≠ "")
    (hleft : ∀ p ∈ kvs, p.1.align = some "left" ∧ p.2.align ≠ some "left")
    (hnodup : (kvs.map (fun p => strip p.1.text)).Nodup) :
    reduce ([hdr] :: kvs.map kvRow) = .ok [(strip hdr.text, kvs.map kvEntry)] ∧
      (kvs.map kvEntry).length = kvs.length := by
  refine ⟨?_, List.length_map ..⟩
  rw [reduce, reduceFrom_cons, reduceStep_header none [] hdr hh]
  show (reduceFrom (some (strip hdr.text), [(strip hdr.text, [])]) (kvs.map kvRow)).map
    (fun st => st.2) = _
  rw [reduceFrom_kv_rows (strip hdr.text) [] kvs hleft (fun p _ => rfl) hnodup]
  rfl

theorem reduce_wellformed_single_section_witness :
    reduce ([⟨"Hdr", none⟩] ::
        [((⟨"A", some "left"⟩ : Cell), (⟨"x", none⟩ : Cell)),
         ((⟨"B", some "left"⟩ : Cell), (⟨"y", none⟩ : Cell))].map kvRow) =
      .ok [(strip "Hdr",
        [((⟨"A", some "left"⟩ : Cell), (⟨"x", none⟩ : Cell)),
         ((⟨"B", some "left"⟩ : Cell), (⟨"y", none⟩ : Cell))].map kvEntry)] ∧
      ([((⟨"A", some "left"⟩ : Cell), (⟨"x", none⟩ : Cell)),
        ((⟨"B", some "left"⟩ : Cell), (⟨"y", none⟩ : Cell))].map kvEntry).length =
      ([((⟨"A", some "left"⟩ : Cell), (⟨"x", none⟩ : Cell)),
        ((⟨"B", some "left"⟩ : Cell), (⟨"y", none⟩ : Cell))] :
          List (Cell × Cell)).length :=
  reduce_wellformed_single_section ⟨"Hdr", none⟩
    [(⟨"A", some "left"⟩, ⟨"x", none⟩), (⟨"B", some "left"⟩, ⟨"y", none⟩)]
    (by decide) (by decide) (by decide)

/-- C2 counterexample: `dupLabelRows` consists of one header row followed by
N = 2 key/value rows, each a left-aligned label cell followed by a value
cell, yet the resulting single section holds 1 entry, not 2 — the repeated
label "A" collapsed into one entry keeping the later value. -/
theorem reduce_duplicate_label_collapses :
    reduce dupLabelRows = .ok [("Hdr", [("A", some "y")])] ∧
      ([("A", some "y")] : Section).length ≠ dupLabelRows.tail.length := by
  exact ⟨by decide, by decide⟩

/-- C4 counterexample: a present-but-empty value is not mapped to any
distinguishable Unknown state: the decision logic produces exactly the same
intent sequence for empty-string hook and registration values as for the
definite negative values "Off" / "Not Registered", and a missing attribute
makes status construction fail with a lookup error rather than produce an
Unknown value. -/
theorem empty_value_not_distinguishable :
    decide ⟨some "", some ""⟩ ⟨some "Off", some "Registered"⟩ =
      decide ⟨some "Off", some "Not Registered"⟩ ⟨some "Off", some "Registered"⟩ ∧
    buildLineStatus [("Line 1 Status", []),
        ("Line 2 Status",
          [("Hook State:", some "Off"), ("Registration State:", some "Registered")])] =
      .error (.missingKey "Line 1 Status" "Hook State:") := by
  exact ⟨by decide, by decide⟩

/-- C4 (amended): a present-but-empty hook or registration value is treated
exactly as the definite negative state — the hook does not count as On and
the line counts as unregistered — and is downstream-indistinguishable from
"Off" / "Not Registered"; a missing attribute instead raises a lookup
failure naming the section and attribute, ending the cycle with exit
status 1 before any decision is made. -/
theorem empty_or_missing_value_behavior (s2 : LineStatus) (d : StatusTable) (sec : Section)
    (pingOk : NotificationIntent → Bool)
    (hsec : dictGet? "Line 1 Status" d = some sec)
    (hmiss : dictGet? "Hook State:" sec = none) :
    hookStateOn (some "") = hookStateOn (some "Off") ∧
    lineUnregistered (some "") = lineUnregistered (some "Not Registered") ∧
    decide ⟨some "", some ""⟩ s2 = decide ⟨some "Off", some "Not Registered"⟩ s2 ∧
    buildLineStatus d = .error (.missingKey "Line 1 Status" "Hook State:") ∧
    exitCode d pingOk = 1 := by
  have hattr : getAttr d "Line 1 Status" "Hook State:" =
      .error (.missingKey "Line 1 Status" "Hook State:") := by
    rw [getAttr, hsec]
    show (match dictGet? "Hook State:" sec with
      | none => Except.error (MainError.missingKey "Line 1 Status" "Hook State:")
      | some v => Except.ok v) = _
    rw [hmiss]
  have hbuild : buildLineStatus d = .error (.missingKey "Line 1 Status" "Hook State:") := by
    rw [buildLineStatus, hattr]
    rfl
  refine ⟨rfl, rfl, ?_, hbuild, ?_⟩
  · have h1 : hookStateOn (some "") = false := rfl
    have h2 : hookStateOn (some "Off") = false := rfl
    have h3 : lineUnregistered (some "") = true := rfl
    have h4 : lineUnregistered (some "Not Registered") = true := rfl
    rw [decide, decide, hookLines, hookLines, unregLines, unregLines, h1, h2, h3, h4]
  · rw [exitCode, hbuild]

theorem empty_or_missing_value_behavior_witness :
    hookStateOn (some "") = hookStateOn (some "Off") ∧
    lineUnregistered (some "") = lineUnregistered (some "Not Registered") ∧
    decide ⟨some "", some ""⟩ ⟨some "On", some "Registered"⟩ =
      decide ⟨some "Off", some "Not Registered"⟩ ⟨some "On", some "Registered"⟩ ∧
    buildLineStatus [("Line 1 Status", [])] =
      .error (.missingKey "Line 1 Status" "Hook State:") ∧
    exitCode [("Line 1 Status", [])] (fun _ => true) = 1 :=
  empty_or_missing_value_behavior ⟨some "On", some "Registered"⟩ [("Line 1 Status", [])] []
    (fun _ => true) (by decide) (by decide)

/-- C5: for any present, non-empty attribute value, the hook state counts as
On exactly when the value equals "On", and the line counts as unregistered
exactly when the value differs from "Registered"; any other present string
is treated as the negative state, never the positive one.  Accordingly a
hook-on intent for line 1 is emitted exactly when line 1's hook value is
"On", and line 1 appears among the unregistered lines exactly when its
registration value is not "Registered". -/
theorem present_value_mapping (v : String) (hv : v ≠ "") (r h : Option String)
    (s2 : LineStatus) :
    (hookStateOn (some v) = true ↔ v = "On") ∧
    (lineUnregistered (some v) = true ↔ v ≠ "Registered") ∧
    (NotificationIntent.HookOn 1 ∈ decide ⟨some v, r⟩ s2 ↔ v = "On") ∧
    ((1 : Nat) ∈ unregLines ⟨h, some v⟩ s2 ↔ v ≠ "Registered") := by
  have hiff1 : hookStateOn (some v) = true ↔ v = "On" := by simp [hookStateOn]
  have hiff2 : lineUnregistered (some v) = true ↔ v ≠ "Registered" := by
    simp [lineUnregistered]
  refine ⟨hiff1, hiff2, ?_, ?_⟩
  · rw [← hiff1]
    cases h1 : hookStateOn (some v) <;>
      cases h2 : hookStateOn s2.hook <;>
      cases h3 : lineUnregistered r <;>
      cases h4 : lineUnregistered s2.reg <;>
      simp [decide, hookLines, unregLines, h1, h2, h3, h4]
  · rw [← hiff2]
    cases h3 : lineUnregistered (some v) <;>
      cases h4 : lineUnregistered s2.reg <;>
      simp [unregLines, h3, h4]

theorem present_value_mapping_witness :
    ("Busy" : String) ≠ "" ∧
    ((hookStateOn (some "Busy") = true ↔ ("Busy" : String) = "On") ∧
     (lineUnregistered (some "Busy") = true ↔ ("Busy" : String) ≠ "Registered") ∧
     (NotificationIntent.HookOn 1 ∈
        decide ⟨some "Busy", some "Registered"⟩ ⟨none, some "Registered"⟩ ↔
          ("Busy" : String) = "On") ∧
     ((1 : Nat) ∈ unregLines ⟨some "On", some "Busy"⟩ ⟨none, some "Registered"⟩ ↔
          ("Busy" : String) ≠ "Registered")) :=
  ⟨by decide, present_value_mapping "Busy" (by decide) (some "Registered") (some "On")
    ⟨none, some "Registered"⟩⟩

theorem runIntents_hooks (pingOk : NotificationIntent → Bool) (hooks : List Nat)
    (r : NotificationIntent) (hr : isRegIntent r = true) :
    runIntents pingOk (hooks.map NotificationIntent.HookOn ++ [r]) =
      if ((hooks.map NotificationIntent.HookOn ++ [r]).all pingOk = true ∧
          r = NotificationIntent.RegistrationOk) then 0 else 1 := by
  induction hooks with
  | nil =>
    cases hpr : pingOk r with
    | true =>
      cases r with
      | HookOn l => simp [isRegIntent] at hr
      | RegistrationOk => simp [runIntents, hpr]
      | RegistrationFail ls => simp [runIntents, hpr]
    | false =>
      cases r with
      | HookOn l => simp [isRegIntent] at hr
      | RegistrationOk => simp [runIntents, hpr]
      | RegistrationFail ls => simp [runIntents, hpr]
  | cons l hooks ih =>
    cases hpl : pingOk (NotificationIntent.HookOn l) with
    | true => simp [runIntents, hpl, ih]
    | false => simp [runIntents, hpl]

/-- C6: one check cycle exits with status 0 exactly when the line statuses
were all readable, the decision ended in the `RegistrationOk` intent, and
every notification ping succeeded; in every other situation — a
`RegistrationFail` decision, a failed ping, or a lookup failure while
reading the statuses — the exit status is 1 (and those are the only two
exit statuses). -/
theorem exit_code_zero_iff (data : StatusTable) (pingOk : NotificationIntent → Bool) :
    (exitCode data pingOk = 0 ↔
      ∃ s1 s2, buildLineStatus data = .ok (s1, s2) ∧
        (decide s1 s2).getLast? = some NotificationIntent.RegistrationOk ∧
        ∀ i ∈ decide s1 s2, pingOk i = true) ∧
    (exitCode data pingOk = 0 ∨ exitCode data pingOk = 1) := by
  cases hb : buildLineStatus data with
  | error e =>
    have hx : exitCode data pingOk = 1 := by rw [exitCode, hb]
    refine ⟨?_, Or.inr hx⟩
    rw [hx]
    simp [hb]
  | ok s12 =>
    obtain ⟨s1, s2⟩ := s12
    have hx : exitCode data pingOk = runIntents pingOk (decide s1 s2) := by
      rw [exitCode, hb]
    have hreg : isRegIntent (if unregLines s1 s2 = [] then NotificationIntent.RegistrationOk
        else NotificationIntent.RegistrationFail (unregLines s1 s2)) = true := by
      split <;> rfl
    have hdec : decide s1 s2 = (hookLines s1 s2).map NotificationIntent.HookOn ++
        [if unregLines s1 s2 = [] then NotificationIntent.RegistrationOk
          else NotificationIntent.RegistrationFail (unregLines s1 s2)] := rfl
    have hrun := runIntents_hooks pingOk (hookLines s1 s2)
      (if unregLines s1 s2 = [] then NotificationIntent.RegistrationOk
        else NotificationIntent.RegistrationFail (unregLines s1 s2)) hreg
    have hlast : (decide s1 s2).getLast? =
        some (if unregLines s1 s2 = [] then NotificationIntent.RegistrationOk
          else NotificationIntent.RegistrationFail (unregLines s1 s2)) := by
      rw [hdec]
      exact List.getLast?_concat _
    constructor
    · rw [hx, hdec, hrun]
      constructor
      · intro h0
        by_cases hcond : (((hookLines s1 s2).map NotificationIntent.HookOn ++
            [if unregLines s1 s2 = [] then NotificationIntent.RegistrationOk
              else NotificationIntent.RegistrationFail (unregLines s1 s2)]).all pingOk = true ∧
            (if unregLines s1 s2 = [] then NotificationIntent.RegistrationOk
              else NotificationIntent.RegistrationFail (unregLines s1 s2)) =
              NotificationIntent.RegistrationOk)
        · refine ⟨s1, s2, rfl, ?_, ?_⟩
          · rw [hlast, hcond.2]
          · intro i hi
            rw [hdec] at hi
            exact List.all_eq_true.1 hcond.1 i hi
        · rw [if_neg hcond] at h0
          exact absurd h0 (by decide)
      · rintro ⟨s1', s2', hb', hlast', hall'⟩
        injection hb' with hpair
        injection hpair with h1 h2
        subst h1
        subst h2
        rw [hlast] at hlast'
        injection hlast' with hr'
        rw [if_pos ?hc]
        case hc =>
          refine ⟨List.all_eq_true.2 ?_, hr'⟩
          intro i hi
          rw [← hdec] at hi
          exact hall' i hi
    · rw [hx, hdec, hrun]
      split <;> split <;> simp

end VoIPCheck
